import Mathlib

/-!
Verification of the document indexing and semantic retrieval engine of the
Legal-Document-Parser repository, shallowly embedded in Lean 4.

The embedding covers:

* the chunker `DocumentService._chunk_text`
  (backend/app/services/document_service.py, lines 465-484);
* the FAISS-backed vector store service
  (api/app/services/vector_store.py): `CustomRetriever.get_relevant_documents`,
  `VectorStoreService._store_documents_sync`, `store_documents`,
  `search_similar`, `delete_collection`;
* the persistence step sequence of `process_and_store_pdfs`
  (backend/embeddings/embed_pdfs.py, lines 96-111).

Text is modelled as `List Char`, the persisted companion pair
(vector file + catalog pickle) as an `Option` of a vector-list/document-list
pair, Python exceptions as `Option`/early-`none`, and the external
collaborators (embedding model, chunk files on disk, the langchain fallback
store) as an explicit environment of fallible functions.
-/

/-! ## Chunker: DocumentService._chunk_text -/

/-- Python slice `text[start : start + n]` on a character list (clamped at
the end of the list, as Python slicing is). -/
def pySlice (text : List Char) (start n : Nat) : List Char :=
  (text.drop start).take n

/-- Loop of `_chunk_text`: while `start < len(text)`, append
`text[start : start + chunk_size]`, set `start` to `start + chunk_size -
overlap`, and break once `start >= len(text)`. The `Nat` fuel models the
unbounded Python `while`; `none` means the fuel ran out before the loop
finished (the loop in the source does not terminate when
`overlap >= chunk_size`, so a fuel parameter is the faithful embedding). -/
def chunkLoop (chunkSize overlap : Nat) (text : List Char) :
    Nat → Nat → Option (List (List Char))
  | 0, _ => none
  | fuel + 1, start =>
    if start < text.length then
      if text.length ≤ start + chunkSize - overlap then
        some [pySlice text start chunkSize]
      else
        (chunkLoop chunkSize overlap text fuel (start + chunkSize - overlap)).map
          (fun rest => pySlice text start chunkSize :: rest)
    else
      some []

/-- `DocumentService._chunk_text(text, chunk_size, chunk_overlap)`: run
`chunkLoop` from `start = 0` with fuel `len(text) + 1` (which suffices
whenever `overlap < chunk_size`, see `c7_chunker_terminates`). -/
def chunkText (text : List Char) (chunkSize overlap : Nat) :
    Option (List (List Char)) :=
  chunkLoop chunkSize overlap text (text.length + 1) 0

lemma pySlice_length_le (text : List Char) (start n : Nat) :
    (pySlice text start n).length ≤ n := by
  simp [pySlice]

lemma chunkLoop_terminates (cs ov : Nat) (hov : ov < cs) (text : List Char) :
    ∀ fuel start, text.length - start < fuel →
      ∃ r, chunkLoop cs ov text fuel start = some r := by
  intro fuel
  induction fuel with
  | zero => intro start h; omega
  | succ fuel ih =>
    intro start h
    by_cases hs : start < text.length
    · by_cases hn : text.length ≤ start + cs - ov
      · exact ⟨[pySlice text start cs], by simp [chunkLoop, hs, hn]⟩
      · obtain ⟨r, hr⟩ := ih (start + cs - ov) (by omega)
        exact ⟨pySlice text start cs :: r, by simp [chunkLoop, hs, hn, hr]⟩
    · exact ⟨[], by simp [chunkLoop, hs]⟩

/-- C7: for every text, every `chunk_size > 0` and every
`0 ≤ overlap < chunk_size`, the chunker `_chunk_text` terminates and
returns a finite list of chunks (the fuel `len(text) + 1` given to the
loop suffices). -/
theorem c7_chunker_terminates (text : List Char) (cs ov : Nat)
    (hcs : 0 < cs) (hov : ov < cs) :
    ∃ r, chunkText text cs ov = some r :=
  chunkLoop_terminates cs ov hov text (text.length + 1) 0 (by omega)

/-- Witness for C7 at a concrete input. -/
theorem c7_chunker_terminates_witness :
    ∃ r, chunkText ['a', 'b', 'c'] 2 1 = some r :=
  c7_chunker_terminates ['a', 'b', 'c'] 2 1 (by decide) (by decide)

lemma chunkLoop_get_eq (cs ov : Nat) (hov : ov < cs) (text : List Char) :
    ∀ (fuel start : Nat) (chunks : List (List Char)),
      chunkLoop cs ov text fuel start = some chunks →
      ∀ i, ∀ h : i < chunks.length,
        chunks.get ⟨i, h⟩ = pySlice text (start + i * (cs - ov)) cs := by
  intro fuel
  induction fuel with
  | zero => intro start chunks hc; simp [chunkLoop] at hc
  | succ fuel ih =>
    intro start chunks hc i h
    by_cases hs : start < text.length
    · by_cases hn : text.length ≤ start + cs - ov
      · simp only [chunkLoop, if_pos hs, if_pos hn, Option.some.injEq] at hc
        subst hc
        cases i with
        | zero => simp
        | succ j => simp at h
      · simp only [chunkLoop, if_pos hs, if_neg hn, Option.map_eq_some'] at hc
        obtain ⟨rest, hrest, hchunks⟩ := hc
        subst hchunks
        cases i with
        | zero => simp
        | succ j =>
          have hj : j < rest.length := by
            simpa using Nat.lt_of_succ_lt_succ h
          have := ih (start + cs - ov) rest hrest j hj
          simp only [List.get_cons_succ]
          rw [this]
          have harg : start + cs - ov + j * (cs - ov) = start + (j + 1) * (cs - ov) := by
            have h1 : start + cs - ov = start + (cs - ov) :=
              Nat.add_sub_assoc (Nat.le_of_lt hov) start
            rw [h1]; ring
          rw [harg]
    · simp only [chunkLoop, if_neg hs, Option.some.injEq] at hc
      subst hc
      simp at h

/-- Chunk count of the loop depends only on the length of the text. -/
def chunkCount (cs ov len : Nat) : Nat → Nat → Option Nat
  | 0, _ => none
  | fuel + 1, start =>
    if start < len then
      if len ≤ start + cs - ov then
        some 1
      else
        (chunkCount cs ov len fuel (start + cs - ov)).map (· + 1)
    else
      some 0

lemma chunkLoop_length_eq_count (cs ov : Nat) (text : List Char) :
    ∀ fuel start,
      (chunkLoop cs ov text fuel start).map List.length
        = chunkCount cs ov text.length fuel start := by
  intro fuel
  induction fuel with
  | zero => intro start; simp [chunkLoop, chunkCount]
  | succ fuel ih =>
    intro start
    by_cases hs : start < text.length
    · by_cases hn : text.length ≤ start + cs - ov
      · simp [chunkLoop, chunkCount, hs, hn]
      · simp only [chunkLoop, chunkCount, if_pos hs, if_neg hn]
        rw [← ih (start + cs - ov)]
        cases chunkLoop cs ov text fuel (start + cs - ov) <;> simp
    · simp [chunkLoop, chunkCount, hs]

/-- C8: with `0 ≤ overlap < chunk_size` on a non-empty text, the i-th chunk
of `_chunk_text` is exactly the slice
`text[i*(chunk_size-overlap) : i*(chunk_size-overlap)+chunk_size]`; hence
every chunk has at most `chunk_size` characters and each chunk after the
first begins with the final `overlap` characters of the previous chunk's
span; in particular a 900-character text with `chunk_size = 300`,
`overlap = 50` yields exactly 4 chunks. -/
theorem c8_chunk_slices (text : List Char) (cs ov : Nat)
    (chunks : List (List Char)) (hne : text ≠ []) (hcs : 0 < cs)
    (hov : ov < cs) (hchunks : chunkText text cs ov = some chunks) :
    (∀ i, ∀ h : i < chunks.length,
        chunks.get ⟨i, h⟩ = pySlice text (i * (cs - ov)) cs)
    ∧ (∀ c ∈ chunks, c.length ≤ cs)
    ∧ (∀ i, ∀ h : i + 1 < chunks.length,
        (chunks.get ⟨i + 1, h⟩).take ov
          = (chunks.get ⟨i, Nat.lt_of_succ_lt h⟩).drop (cs - ov))
    ∧ (text.length = 900 → cs = 300 → ov = 50 → chunks.length = 4) := by
  have hget := chunkLoop_get_eq cs ov hov text (text.length + 1) 0 chunks hchunks
  have hslice : ∀ i, ∀ h : i < chunks.length,
      chunks.get ⟨i, h⟩ = pySlice text (i * (cs - ov)) cs := by
    intro i h
    have := hget i h
    simpa using this
  refine ⟨hslice, ?_, ?_, ?_⟩
  · intro c hc
    obtain ⟨⟨i, hi⟩, rfl⟩ := List.mem_iff_get.mp hc
    rw [hslice i hi]
    exact pySlice_length_le text (i * (cs - ov)) cs
  · intro i h
    rw [hslice (i + 1) h, hslice i (Nat.lt_of_succ_lt h)]
    have hov' : ov ≤ cs := Nat.le_of_lt hov
    calc (pySlice text ((i + 1) * (cs - ov)) cs).take ov
        = (text.drop ((i + 1) * (cs - ov))).take ov := by
          simp [pySlice, List.take_take, Nat.min_eq_left hov']
      _ = ((text.drop (i * (cs - ov))).drop (cs - ov)).take ov := by
          rw [List.drop_drop]
          congr 1
          ring
      _ = (pySlice text (i * (cs - ov)) cs).drop (cs - ov) := by
          rw [pySlice, List.drop_take]
          congr 1
          omega
  · intro hlen hcs300 hov50
    have hc0 := chunkLoop_length_eq_count cs ov text (text.length + 1) 0
    have hc : (some chunks).map List.length
        = chunkCount cs ov text.length (text.length + 1) 0 := by
      rw [← hc0]
      exact congrArg (Option.map List.length) hchunks.symm
    rw [hlen, hcs300, hov50] at hc
    have h4 : chunkCount 300 50 900 901 0 = some 4 := by decide
    rw [h4] at hc
    simpa using hc

/-- Concrete 8-character text and its chunks for the C8 witness. -/
def chars8 : List Char := ['a', 'b', 'c', 'd', 'e', 'f', 'g', 'h']

/-- Chunks of `chars8` with `chunk_size = 3`, `overlap = 1`. -/
def chunks8 : List (List Char) :=
  [['a', 'b', 'c'], ['c', 'd', 'e'], ['e', 'f', 'g'], ['g', 'h']]

/-- Witness for C8 at a concrete input. -/
theorem c8_chunk_slices_witness :
    chunkText chars8 3 1 = some chunks8
    ∧ (∀ i, ∀ h : i < chunks8.length,
        chunks8.get ⟨i, h⟩ = pySlice chars8 (i * 2) 3) := by
  have h := c8_chunk_slices chars8 3 1 chunks8 (by decide) (by decide)
    (by decide) (by decide)
  exact ⟨by decide, h.1⟩

/-- Counterexample to C9: a whitespace-only (non-empty) input does not
yield zero chunks — `_chunk_text` never strips its input, so three spaces
with the source's default `chunk_size = 1000`, `overlap = 200` come back
as one chunk holding the three spaces. -/
theorem c9_counterexample :
    (∀ c ∈ [' ', ' ', ' '], c.isWhitespace = true)
    ∧ chunkText [' ', ' ', ' '] 1000 200 = some [[' ', ' ', ' ']]
    ∧ chunkText [' ', ' ', ' '] 1000 200 ≠ some [] := by
  refine ⟨by decide, by decide, by decide⟩

/-- C9 amended: an empty input yields zero chunks and no error, for any
parameters; a non-empty whitespace-only input is chunked like any other
text (no stripping happens) — when it fits in one step it yields exactly
one chunk holding the whitespace itself. -/
theorem c9_amended_empty_and_whitespace :
    (∀ cs ov : Nat, chunkText [] cs ov = some [])
    ∧ (∀ (text : List Char) (cs ov : Nat),
        text ≠ [] → (∀ c ∈ text, c.isWhitespace = true) → ov < cs →
        text.length ≤ cs - ov → chunkText text cs ov = some [text]) := by
  constructor
  · intro cs ov
    simp [chunkText, chunkLoop]
  · intro text cs ov hne hws hov hlen
    have hpos : 0 < text.length := List.length_pos.mpr hne
    have hcs : text.length ≤ cs := le_trans hlen (Nat.sub_le cs ov)
    have htake : pySlice text 0 cs = text := by
      simp [pySlice, List.take_of_length_le hcs]
    simp [chunkText, chunkLoop, hpos, htake, Nat.le_sub_of_add_le]
    omega

/-- Witness for the amended C9 at a concrete input. -/
theorem c9_amended_witness : chunkText [' '] 3 1 = some [[' ']] :=
  c9_amended_empty_and_whitespace.2 [' '] 3 1 (by decide) (by decide)
    (by decide) (by decide)

/-! ## Vector store service: api/app/services/vector_store.py

The persisted companion pair (the FAISS index file and the pickled
document catalog under `index/`) is modelled as an `Option` of a
vector-list/document-list pair: `none` means the artifacts are absent.
Embedding vectors are opaque `List Int` values. -/

/-- A langchain `Document` as stored in the pickled catalog: its text, its
optional `collection_id` metadata entry and its optional `chunk_path`
metadata entry (the file the retriever re-reads the text from). -/
structure Doc where
  pageContent : List Char
  collectionId : Option String
  chunkPath : Option String
deriving Repr, DecidableEq

/-- The persisted state of one index instance: `none` when the companion
artifacts are absent, otherwise the deserialized vector list and catalog. -/
abbrev PState : Type := Option (List (List Int) × List Doc)

/-- External collaborators of the retrieval engine, as fallible functions:
the embedding model (for queries and for documents; `none` models a raised
exception), the FAISS ranking of stored vectors against a query vector
(its numeric scores are abstracted away, only the produced position order
matters to the code under verification), chunk files on disk, and the
langchain fallback store used when the index artifacts are absent. -/
structure Env where
  embedQuery : String → Option (List Int)
  embedDoc : Doc → Option (List Int)
  rank : List (List Int) → List Int → List Nat
  readFile : String → Option (List Char)
  fallbackRetrieve : String → Nat → Option (List Doc)

/-- Python list indexing `l[i]`: a negative index counts from the end of
the list; an out-of-range index raises IndexError (`none`). -/
def pyGet {α : Type} (l : List α) (i : Int) : Option α :=
  if 0 ≤ i then l.get? i.toNat
  else if (-i).toNat ≤ l.length then l.get? (l.length - (-i).toNat)
  else none

/-- FAISS `index.search` on an `IndexFlatIP` holding `vecs`: it always
returns exactly `k` labels per query — the `min k ntotal` ranked hits
first, then `-1` padding when the index holds fewer than `k` vectors
(the documented FAISS convention for missing results). -/
def faissSearch (env : Env) (vecs : List (List Int)) (q : List Int)
    (k : Nat) : List Int :=
  ((env.rank vecs q).take (min k vecs.length)).map Int.ofNat
    ++ List.replicate (k - min k vecs.length) (-1)

/-- Result-hydration loop of `CustomRetriever.get_relevant_documents`
(vector_store.py lines 60-68): for each label, if `idx < len(documents)`
take `documents[idx]` (Python indexing — a `-1` label wraps to the LAST
document; an IndexError there escapes the surrounding try, `none`), then
re-read the chunk text from `metadata['chunk_path']`, where a missing key
or unreadable file is swallowed by the inner `except: pass` and merely
skips that result. -/
def hydrate (env : Env) (documents : List Doc) :
    List Int → Option (List Doc)
  | [] => some []
  | idx :: rest =>
    if idx < (documents.length : Int) then
      match pyGet documents idx with
      | none => none
      | some doc =>
        match doc.chunkPath with
        | none => hydrate env documents rest
        | some p =>
          match env.readFile p with
          | none => hydrate env documents rest
          | some txt =>
            (hydrate env documents rest).map
              (fun rs => { doc with pageContent := txt } :: rs)
    else hydrate env documents rest

/-- `CustomRetriever.get_relevant_documents(query)` over a loaded pair
(vector_store.py lines 51-71): embed the query, run the FAISS search with
the retriever's `k`, hydrate the labels; the outer `except: return []`
turns any escaped exception into an empty list. -/
def getRelevantDocuments (env : Env) (vecs : List (List Int))
    (documents : List Doc) (k : Nat) (query : String) : List Doc :=
  match env.embedQuery query with
  | none => []
  | some q =>
    match hydrate env documents (faissSearch env vecs q k) with
    | none => []
    | some rs => rs

/-- A formatted search result of `VectorStoreService.search_similar`
(vector_store.py lines 196-205): content, the collection id carried in
the metadata, and the hard-coded score. -/
structure Passage where
  content : List Char
  collectionId : Option String
  score : Rat
deriving Repr, DecidableEq

/-- `VectorStoreService.search_similar(query, k, collection_id)`
(vector_store.py lines 180-208) composed with `get_retriever(k)` (lines
35-90): when both artifacts exist the `CustomRetriever` runs; otherwise
the langchain sentinel store answers (abstracted by the environment, with
`none` modelling a raised exception). Results are optionally filtered by
collection and formatted with `score = 1.0`; the outer `except` of
`search_similar` turns any raised exception into `[]`. -/
def searchSimilar (env : Env) (st : PState) (query : String) (k : Nat)
    (collectionId : Option String) : List Passage :=
  let results? : Option (List Doc) :=
    match st with
    | some (vecs, documents) =>
      some (getRelevantDocuments env vecs documents k query)
    | none => env.fallbackRetrieve query k
  match results? with
  | none => []
  | some results =>
    let filtered : List Doc := match collectionId with
      | some cid => results.filter (fun d : Doc => d.collectionId == some cid)
      | none => results
    filtered.map (fun d : Doc =>
      { content := d.pageContent, collectionId := d.collectionId,
        score := (1 : Rat) })

/-- `model.embed_documents` over a batch, as `FAISS.from_documents` calls
it: all texts embed or the call raises (`none`). -/
def embedMany (env : Env) : List Doc → Option (List (List Int))
  | [] => some []
  | d :: ds =>
    match env.embedDoc d, embedMany env ds with
    | some v, some vs => some (v :: vs)
    | _, _ => none

/-- `VectorStoreService._store_documents_sync(docs, model)` (vector_store.py
lines 154-178): when the artifacts exist, load the existing catalog and
build a fresh FAISS store from `existing_docs + docs`, else from `docs`
alone; `FAISS.from_documents` embeds every document (one vector per
document, so vector count and catalog length match by construction) and
`db.save_local` overwrites the persisted pair. A raised exception is
`none` and leaves the persisted pair unchanged. -/
def storeDocumentsSync (env : Env) (st : PState) (docs : List Doc) :
    Option PState :=
  match st with
  | some (_, existingDocs) =>
    (embedMany env (existingDocs ++ docs)).map
      (fun vecs => some (vecs, existingDocs ++ docs))
  | none =>
    (embedMany env docs).map (fun vecs => some (vecs, docs))

/-- Metadata tagging in `store_documents`: attach the collection id to a
document when one is given. -/
def withCollectionId (cid : Option String) (d : Doc) : Doc :=
  match cid with
  | some c => { d with collectionId := some c }
  | none => d

/-- `VectorStoreService.store_documents(documents, collection_id)`
(vector_store.py lines 122-152): tag the documents, return `False` on an
empty batch, run `_store_documents_sync`, and catch any exception as
`False` (state unchanged). -/
def storeDocuments (env : Env) (st : PState) (documents : List Doc)
    (cid : Option String) : Bool × PState :=
  let docs := documents.map (withCollectionId cid)
  if docs.isEmpty then (false, st)
  else
    match storeDocumentsSync env st docs with
    | none => (false, st)
    | some st2 => (true, st2)

/-- `VectorStoreService.delete_collection(collection_id)` (vector_store.py
lines 210-244): nothing to delete when the catalog is absent; otherwise
filter out the collection's documents and, when something was filtered,
either rebuild via `_store_documents_sync(filtered_docs, model)` (survivors
remain) or remove both artifacts (no survivors). A raised exception is
caught and reported as `False`. -/
def deleteCollection (env : Env) (st : PState) (cid : String) :
    Bool × PState :=
  match st with
  | none => (true, none)
  | some (vecs, documents) =>
    let filtered := documents.filter (fun d => !(d.collectionId == some cid))
    if filtered.length ≠ documents.length then
      if filtered.isEmpty then
        (true, none)
      else
        match storeDocumentsSync env (some (vecs, documents)) filtered with
        | none => (false, some (vecs, documents))
        | some st2 => (true, st2)
    else (true, some (vecs, documents))

/-- The C1 invariant on a persisted state: the vector count equals the
catalog length ( vacuously true when the artifacts are absent). -/
def catalogMatchesB : PState → Bool
  | none => true
  | some (vecs, documents) => vecs.length == documents.length

lemma embedMany_length (env : Env) :
    ∀ (ds : List Doc) (vs : List (List Int)),
      embedMany env ds = some vs → vs.length = ds.length := by
  intro ds
  induction ds with
  | nil => intro vs h; simp [embedMany] at h; simp [← h]
  | cons d ds ih =>
    intro vs h
    simp only [embedMany] at h
    cases hd : env.embedDoc d with
    | none => rw [hd] at h; simp at h
    | some v =>
      rw [hd] at h
      cases he : embedMany env ds with
      | none => rw [he] at h; simp at h
      | some vs' =>
        rw [he] at h
        simp only [Option.some.injEq] at h
        subst h
        simp [ih vs' he]

lemma storeDocumentsSync_matches (env : Env) (st : PState)
    (docs : List Doc) (st2 : PState)
    (h : storeDocumentsSync env st docs = some st2) :
    catalogMatchesB st2 = true := by
  cases st with
  | none =>
    simp only [storeDocumentsSync, Option.map_eq_some'] at h
    obtain ⟨vecs, hv, rfl⟩ := h
    simp [catalogMatchesB, embedMany_length env docs vecs hv]
  | some p =>
    obtain ⟨oldVecs, existingDocs⟩ := p
    simp only [storeDocumentsSync, Option.map_eq_some'] at h
    obtain ⟨vecs, hv, rfl⟩ := h
    simp [catalogMatchesB, embedMany_length env _ vecs hv]

/-- C1: after every successful mutation — a `store_documents` call that
returns `True` or a `delete_collection` call that returns `True` — the
number of vectors in the persisted index equals the number of entries in
the persisted catalog (as an inductive invariant: it is preserved from
any state that satisfies it). -/
theorem c1_index_catalog_invariant (env : Env) (st : PState)
    (documents : List Doc) (cid : Option String) (delId : String)
    (hwf : catalogMatchesB st = true) :
    ((storeDocuments env st documents cid).1 = true →
      catalogMatchesB (storeDocuments env st documents cid).2 = true)
    ∧ ((deleteCollection env st delId).1 = true →
      catalogMatchesB (deleteCollection env st delId).2 = true) := by
  constructor
  · intro hok
    simp only [storeDocuments] at hok ⊢
    by_cases he : (documents.map (withCollectionId cid)).isEmpty
    · simp [he] at hok
    · simp only [he, Bool.false_eq_true, if_false] at hok ⊢
      cases hs : storeDocumentsSync env st (documents.map (withCollectionId cid)) with
      | none =>
        rw [hs] at hok
        exact absurd hok (by simp)
      | some st2 =>
        exact storeDocumentsSync_matches env st _ st2 hs
  · intro hok
    cases st with
    | none => simp [deleteCollection, catalogMatchesB]
    | some p =>
      obtain ⟨vecs, documents'⟩ := p
      simp only [deleteCollection] at hok ⊢
      by_cases hlen :
          (documents'.filter (fun d => !(d.collectionId == some delId))).length
            ≠ documents'.length
      · simp only [if_pos hlen] at hok ⊢
        by_cases hemp :
            (documents'.filter (fun d => !(d.collectionId == some delId))).isEmpty
        · simp [hemp, catalogMatchesB]
        · simp only [hemp, Bool.false_eq_true, if_false] at hok ⊢
          cases hs : storeDocumentsSync env (some (vecs, documents'))
              (documents'.filter (fun d => !(d.collectionId == some delId))) with
          | none =>
            rw [hs] at hok
            exact absurd hok (by simp)
          | some st2 =>
            exact storeDocumentsSync_matches env _ _ st2 hs
      · simp only [if_neg hlen] at hok ⊢
        exact hwf

/-! ## Concrete environments and states used in evaluations -/

/-- Concrete environment: every embedding succeeds, FAISS ranks stored
vectors by position, chunk files "pa" and "pb" hold one character each,
any other path is unreadable. -/
def envW : Env where
  embedQuery := fun _ => some [0]
  embedDoc := fun _ => some [0]
  rank := fun vecs _ => List.range vecs.length
  readFile := fun p =>
    if p = "pa" then some ['A'] else if p = "pb" then some ['B'] else none
  fallbackRetrieve := fun _ _ => some []

/-- Concrete environment whose embedding model always raises. -/
def envFail : Env where
  embedQuery := fun _ => none
  embedDoc := fun _ => none
  rank := fun vecs _ => List.range vecs.length
  readFile := fun _ => none
  fallbackRetrieve := fun _ _ => none

/-- A catalog entry in collection "X" whose chunk file is readable. -/
def docX : Doc :=
  { pageContent := ['x'], collectionId := some "X", chunkPath := some "pa" }

/-- A catalog entry in collection "Y" whose chunk file is readable. -/
def docY : Doc :=
  { pageContent := ['y'], collectionId := some "Y", chunkPath := some "pb" }

/-- A persisted pair holding exactly the two real chunks docX and docY. -/
def stXY : PState := some ([[1], [2]], [docX, docY])

/-- Witness for C1 at concrete inputs. -/
theorem c1_index_catalog_invariant_witness :
    catalogMatchesB (storeDocuments envW none [docX] none).2 = true
    ∧ catalogMatchesB (deleteCollection envW (some ([[0]], [docX])) "X").2
        = true :=
  ⟨(c1_index_catalog_invariant envW none [docX] none "X" (by rfl)).1 (by rfl),
   (c1_index_catalog_invariant envW (some ([[0]], [docX])) [docX] none "X"
      (by rfl)).2 (by rfl)⟩

/-- C5 fails on the code: deleting collection "X" from a catalog holding
one "X" document and one "Y" document returns True, but because
`delete_collection` rebuilds through `_store_documents_sync` — which
APPENDS its argument to the still-existing catalog — the persisted
catalog becomes [docX, docY, docY]; filtering it for collection "X"
still returns docX. -/
theorem c5_delete_keeps_deleted_collection :
    (deleteCollection envW stXY "X").1 = true
    ∧ (deleteCollection envW stXY "X").2
        = some ([[0], [0], [0]], [docX, docY, docY])
    ∧ (match (deleteCollection envW stXY "X").2 with
       | some (_, documents) =>
         documents.filter (fun d : Doc => d.collectionId == some "X")
       | none => []) = [docX] :=
  ⟨rfl, rfl, rfl⟩

/-- A persisted pair whose every chunk belongs to collection "X". -/
def stXonly : PState := some ([[1]], [docX])

/-- Counterexample to C6: a delete whose surviving set is empty removes
both artifacts entirely — afterwards no persisted index exists, and in
particular no sentinel chunk is persisted. -/
theorem c6_counterexample :
    deleteCollection envW stXonly "X" = (true, none) := rfl

/-- C6 amended: for every delete whose surviving set is empty, the
operation returns True and removes both persisted artifacts (it persists
no zero-length structure, and also no sentinel — sentinel initialization
only happens lazily at a later load when the artifacts are absent). -/
theorem c6_amended_delete_all_removes_artifacts (env : Env)
    (vecs : List (List Int)) (documents : List Doc) (cid : String)
    (hne : documents ≠ [])
    (hall : ∀ d ∈ documents, d.collectionId = some cid) :
    deleteCollection env (some (vecs, documents)) cid = (true, none) := by
  have hfilter :
      documents.filter (fun d : Doc => !(d.collectionId == some cid)) = [] := by
    rw [List.filter_eq_nil_iff]
    intro d hd
    simp [hall d hd]
  have hpos : 0 < documents.length := List.length_pos.mpr hne
  simp only [deleteCollection, hfilter]
  have hne' : ¬(0 = documents.length) := by omega
  simp [hne']

/-- Witness for the amended C6 at a concrete input. -/
theorem c6_amended_witness :
    deleteCollection envW (some ([[5]], [docX])) "X" = (true, none) :=
  c6_amended_delete_all_removes_artifacts envW [[5]] [docX] "X" (by decide)
    (by decide)

/-- C2 fails on the code: a search with k = 5 against an index holding
exactly 2 real chunks returns 5 results, not 2. FAISS pads the label
array with -1 when fewer than k vectors exist, the bounds check
`idx < len(self.documents)` lets -1 through, and Python indexing
`documents[-1]` wraps around to the LAST catalog entry — so the last
chunk is returned three extra times. -/
theorem c2_search_k5_on_2_chunks_returns_5 :
    (searchSimilar envW stXY "q" 5 none).length = 5
    ∧ searchSimilar envW stXY "q" 5 none
        = [⟨['A'], some "X", 1⟩, ⟨['B'], some "Y", 1⟩, ⟨['B'], some "Y", 1⟩,
           ⟨['B'], some "Y", 1⟩, ⟨['B'], some "Y", 1⟩] :=
  ⟨rfl, rfl⟩

/-! ## C3: the retrieval path never raises -/

lemma pyGet_mem {α : Type} (l : List α) (i : Int) (a : α)
    (h : pyGet l i = some a) : a ∈ l := by
  unfold pyGet at h
  by_cases h0 : 0 ≤ i
  · rw [if_pos h0] at h
    exact List.get?_mem h
  · rw [if_neg h0] at h
    by_cases h1 : (-i).toNat ≤ l.length
    · rw [if_pos h1] at h
      exact List.get?_mem h
    · rw [if_neg h1] at h
      exact absurd h (by simp)

lemma hydrate_sound (env : Env) (documents : List Doc) :
    ∀ (labels : List Int) (rs : List Doc),
      hydrate env documents labels = some rs →
      ∀ r ∈ rs, ∃ d p, d ∈ documents ∧ d.chunkPath = some p
        ∧ env.readFile p = some r.pageContent := by
  intro labels
  induction labels with
  | nil =>
    intro rs h r hr
    simp only [hydrate, Option.some.injEq] at h
    subst h
    simp at hr
  | cons idx rest ih =>
    intro rs h r hr
    simp only [hydrate] at h
    by_cases hidx : idx < (documents.length : Int)
    · rw [if_pos hidx] at h
      cases hg : pyGet documents idx with
      | none => rw [hg] at h; exact absurd h (by simp)
      | some doc =>
        rw [hg] at h
        dsimp only at h
        cases hcp : doc.chunkPath with
        | none => rw [hcp] at h; exact ih rs h r hr
        | some p =>
          rw [hcp] at h
          dsimp only at h
          cases hrf : env.readFile p with
          | none => rw [hrf] at h; exact ih rs h r hr
          | some txt =>
            rw [hrf] at h
            rw [Option.map_eq_some'] at h
            obtain ⟨rs', hrs', rfl⟩ := h
            rcases List.mem_cons.mp hr with hcase | hcase
            · subst hcase
              exact ⟨doc, p, pyGet_mem documents idx doc hg, hcp, hrf⟩
            · exact ih rs' hrs' r hcase
    · rw [if_neg hidx] at h
      exact ih rs h r hr

lemma getRelevantDocuments_sound (env : Env) (vecs : List (List Int))
    (documents : List Doc) (k : Nat) (q : String) :
    ∀ r ∈ getRelevantDocuments env vecs documents k q,
      ∃ d p, d ∈ documents ∧ d.chunkPath = some p
        ∧ env.readFile p = some r.pageContent := by
  intro r hr
  unfold getRelevantDocuments at hr
  cases he : env.embedQuery q with
  | none => rw [he] at hr; simp at hr
  | some qv =>
    rw [he] at hr
    dsimp only at hr
    cases hh : hydrate env documents (faissSearch env vecs qv k) with
    | none => rw [hh] at hr; simp at hr
    | some rs =>
      rw [hh] at hr
      exact hydrate_sound env documents _ rs hh r hr

/-- A catalog entry (no collection) whose chunk file "p0" is unreadable. -/
def docP0 : Doc :=
  { pageContent := ['a'], collectionId := none, chunkPath := some "p0" }

/-- A catalog entry (no collection) whose chunk file "pb" is readable. -/
def docP1 : Doc :=
  { pageContent := ['b'], collectionId := none, chunkPath := some "pb" }

/-- A persisted pair whose first chunk has an unreadable chunk file. -/
def stP : PState := some ([[1], [2]], [docP0, docP1])

/-- Counterexample to C3: with an unreadable chunk file (an internal
failure named by the claim) the retrieval path does NOT return an empty
result list — the per-result `except: pass` only skips the failing entry
and the remaining hydrated passage is still returned. -/
theorem c3_counterexample :
    envW.readFile "p0" = none
    ∧ docP0 ∈ [docP0, docP1]
    ∧ searchSimilar envW stP "q" 2 none = [⟨['B'], none, 1⟩]
    ∧ searchSimilar envW stP "q" 2 none ≠ [] :=
  ⟨rfl, by simp, rfl, by decide⟩

/-- C3 amended: the retrieval path never raises to the caller — it is a
total function into result lists. An embedding failure (with the index
artifacts present), or a raised fallback retrieval (with them absent),
yields an empty list; an unreadable or missing chunk file however only
skips that single result: every returned passage is hydrated from a
readable chunk file of some catalog entry, so partial results (not an
empty list) are returned when only some chunk files fail. -/
theorem c3_amended_never_raises (env : Env) (st : PState) (q : String)
    (k : Nat) (cid : Option String) :
    (∀ vecs documents, st = some (vecs, documents) →
      env.embedQuery q = none → searchSimilar env st q k cid = [])
    ∧ (st = none → env.fallbackRetrieve q k = none →
        searchSimilar env st q k cid = [])
    ∧ (∀ vecs documents, st = some (vecs, documents) →
        ∀ p ∈ searchSimilar env st q k cid,
          ∃ d pth, d ∈ documents ∧ d.chunkPath = some pth
            ∧ env.readFile pth = some p.content) := by
  refine ⟨?_, ?_, ?_⟩
  · intro vecs documents hst he
    subst hst
    cases cid with
    | none => simp [searchSimilar, getRelevantDocuments, he]
    | some c => simp [searchSimilar, getRelevantDocuments, he]
  · intro hst hf
    subst hst
    simp [searchSimilar, hf]
  · intro vecs documents hst p hp
    subst hst
    cases cid with
    | none =>
      simp only [searchSimilar] at hp
      obtain ⟨d, hd, rfl⟩ := List.mem_map.mp hp
      obtain ⟨d0, pth, hmem, hcp, hrf⟩ :=
        getRelevantDocuments_sound env vecs documents k q d hd
      exact ⟨d0, pth, hmem, hcp, hrf⟩
    | some c =>
      simp only [searchSimilar] at hp
      obtain ⟨d, hd, rfl⟩ := List.mem_map.mp hp
      have hd' := List.mem_of_mem_filter hd
      obtain ⟨d0, pth, hmem, hcp, hrf⟩ :=
        getRelevantDocuments_sound env vecs documents k q d hd'
      exact ⟨d0, pth, hmem, hcp, hrf⟩

/-- Witness for the amended C3 at a concrete input. -/
theorem c3_amended_never_raises_witness :
    searchSimilar envFail (some ([[1]], [docP1])) "q" 1 none = [] :=
  (c3_amended_never_raises envFail (some ([[1]], [docP1])) "q" 1 none).1
    [[1]] [docP1] rfl rfl

/-! ## C10: the hard-coded score -/

/-- C10: every passage returned by `search_similar` carries the score
1.0 exactly, independent of any actual similarity — the formatting step
hard-codes `'score': 1.0`. -/
theorem c10_score_always_one (env : Env) (st : PState) (q : String)
    (k : Nat) (cid : Option String) :
    ∀ p ∈ searchSimilar env st q k cid, p.score = 1 := by
  intro p hp
  cases st with
  | some pr =>
    obtain ⟨vecs, documents⟩ := pr
    cases cid with
    | none =>
      simp only [searchSimilar] at hp
      obtain ⟨d, _, rfl⟩ := List.mem_map.mp hp
      rfl
    | some c =>
      simp only [searchSimilar] at hp
      obtain ⟨d, _, rfl⟩ := List.mem_map.mp hp
      rfl
  | none =>
    cases hf : env.fallbackRetrieve q k with
    | none => simp [searchSimilar, hf] at hp
    | some results =>
      cases cid with
      | none =>
        simp only [searchSimilar, hf] at hp
        obtain ⟨d, _, rfl⟩ := List.mem_map.mp hp
        rfl
      | some c =>
        simp only [searchSimilar, hf] at hp
        obtain ⟨d, _, rfl⟩ := List.mem_map.mp hp
        rfl

/-- Witness for C10 at a concrete input with a non-empty result list. -/
theorem c10_score_always_one_witness :
    (⟨['A'], some "X", (1 : Rat)⟩ : Passage).score = 1 :=
  c10_score_always_one envW (some ([[1]], [docX])) "q" 1 none
    ⟨['A'], some "X", (1 : Rat)⟩ (by decide)

/-! ## C4: persistence step sequence -/

/-- A filesystem operation performed while persisting index state. -/
inductive FsOp where
  | write (path : String)
  | writeTemp (path : String)
  | rename (src dst : String)
deriving Repr, DecidableEq

/-- Whether an operation is a rename. -/
def FsOp.isRen : FsOp → Bool
  | FsOp.rename _ _ => true
  | _ => false

/-- Whether an operation writes directly at a (final) path. -/
def FsOp.isDirectWrite : FsOp → Bool
  | FsOp.write _ => true
  | _ => false

/-- Persistence step sequence of `process_and_store_pdfs`
(backend/embeddings/embed_pdfs.py lines 107-111): `faiss.write_index`
straight to `index/faiss.index`, then `pickle.dump` into an open
`index/documents.pkl` — two direct writes at the final artifact paths. -/
def processAndStorePersistOps : List FsOp :=
  [FsOp.write "index/faiss.index", FsOp.write "index/documents.pkl"]

/-- The persistence discipline C4 asserts: state goes to a temp path and
reaches the final artifacts only through an atomic rename — so no direct
write at a final path, and at least one rename. -/
def atomicTempRenameDiscipline (ops : List FsOp) : Bool :=
  ops.all (fun op => !FsOp.isDirectWrite op)
    && ops.any (fun op => FsOp.isRen op)

/-- What a concurrent loader can observe: the artifact pair's versions
after each prefix of the operation sequence (0 = old content). -/
structure ArtifactView where
  indexVer : Nat
  catalogVer : Nat
deriving Repr, DecidableEq

/-- Effect of one filesystem operation on the loader-visible pair. -/
def applyFsOp (v : ArtifactView) : FsOp → ArtifactView
  | FsOp.write p =>
    if p = "index/faiss.index" then { v with indexVer := v.indexVer + 1 }
    else if p = "index/documents.pkl" then
      { v with catalogVer := v.catalogVer + 1 }
    else v
  | FsOp.writeTemp _ => v
  | FsOp.rename _ dst =>
    if dst = "index/faiss.index" then { v with indexVer := v.indexVer + 1 }
    else if dst = "index/documents.pkl" then
      { v with catalogVer := v.catalogVer + 1 }
    else v

/-- All loader-visible states during an operation sequence. -/
def observableViews (ops : List FsOp) (v0 : ArtifactView) : List ArtifactView :=
  List.scanl applyFsOp v0 ops

/-- Counterexample to C4: the persistence performed by
`process_and_store_pdfs` is NOT of the save-to-temp-then-atomic-rename
form — it contains no rename at all, only direct writes at the final
artifact paths. -/
theorem c4_counterexample :
    atomicTempRenameDiscipline processAndStorePersistOps = false := by decide

/-- C4 amended: persistence writes the artifacts directly at their final
paths, vector index file first and catalog file second, with no temporary
path and no rename; consequently a concurrent loader reading between the
two writes can observe a mismatched pair — the new vector index next to
the old catalog (view ⟨1, 0⟩). -/
theorem c4_amended_direct_writes :
    processAndStorePersistOps.all (fun op => !FsOp.isRen op) = true
    ∧ processAndStorePersistOps.all FsOp.isDirectWrite = true
    ∧ ArtifactView.mk 1 0
        ∈ observableViews processAndStorePersistOps (ArtifactView.mk 0 0) := by
  refine ⟨by decide, by decide, by decide⟩
